import Mathlib

/-!
Early printk for ARM (`xen/include/asm-arm/early_printk.h`)

A shallow embedding of the header:

* the macro `EARLY_UART_VIRTUAL_ADDRESS`, as a function of the three macros it
  expands (`FIXMAP_ADDR(FIXMAP_CONSOLE)`, `EARLY_UART_BASE_ADDRESS`, `PAGE_MASK`),
  none of which is defined in this header, evaluated on unsigned machine words
  of `w` bits;
* the two inline stand-ins compiled when `CONFIG_EARLY_PRINTK` is undefined
  (`early_printk` with body `{}`, `early_panic` with body `{while(1);}`), as
  statements of a small C fragment with a small-step semantics over the UART
  output stream;
* the two functions that the header only declares when `CONFIG_EARLY_PRINTK`
  is defined, modelled from the specification.
-/

set_option linter.unusedVariables false

namespace EarlyPrintk

/-! ## Machine words and the address macro -/

/-- C `~x` on an unsigned word of `w` bits: the largest value of the type minus `x`. -/
def bitNot (w x : Nat) : Nat := 2 ^ w - 1 - x % 2 ^ w

/-- The macro
`(FIXMAP_ADDR(FIXMAP_CONSOLE) +(EARLY_UART_BASE_ADDRESS & ~PAGE_MASK))`
on unsigned words of `w` bits (`w = 32` on 32-bit ARM). The three macros it
expands are defined outside this header and are parameters here. The header
defines the macro only under `CONFIG_EARLY_PRINTK`. -/
def EARLY_UART_VIRTUAL_ADDRESS (w FIXMAP_ADDR_FIXMAP_CONSOLE EARLY_UART_BASE_ADDRESS PAGE_MASK : Nat) : Nat :=
  (FIXMAP_ADDR_FIXMAP_CONSOLE + (EARLY_UART_BASE_ADDRESS &&& bitNot w PAGE_MASK)) % 2 ^ w

/-! ## Statements of the inline bodies and their execution -/

/-- Arguments passed through the `...` of the two variadic entry points. -/
inductive Arg where
  | int (v : Int)
  | uint (v : Nat)
  | chr (c : Char)
  | str (s : List Char)

/-- The C statements the bodies are made of: the null statement `;`, a compound
statement, and `while (c) body` with a constant controlling expression.
`transmit` stands for the call into the UART driver, which is outside this
header, writing the given bytes one register write at a time. -/
inductive Stmt where
  | null : Stmt
  | block : List Stmt → Stmt
  | whileLoop : Int → Stmt → Stmt
  | transmit : List Nat → Stmt

/-- A point of the execution of a called function: the statements still to be
executed before control goes back to the caller, and the bytes written to the
UART so far. -/
structure Config where
  cont : List Stmt
  uart : List Nat

/-- Control is back in the caller: nothing of the callee is left to execute. -/
def Config.returned (c : Config) : Bool := c.cont.isEmpty

/-- One execution step. A returned configuration has no step. -/
def step : Config → Option Config
  | ⟨[], _⟩ => none
  | ⟨Stmt.null :: k, u⟩ => some ⟨k, u⟩
  | ⟨Stmt.block ss :: k, u⟩ => some ⟨ss ++ k, u⟩
  | ⟨Stmt.whileLoop c b :: k, u⟩ =>
      if c ≠ 0 then some ⟨b :: Stmt.whileLoop c b :: k, u⟩ else some ⟨k, u⟩
  | ⟨Stmt.transmit [] :: k, u⟩ => some ⟨k, u⟩
  | ⟨Stmt.transmit (b :: bs) :: k, u⟩ => some ⟨Stmt.transmit bs :: k, u ++ [b]⟩

/-- The configuration after `n` steps, when there are that many. -/
def stepN : Nat → Config → Option Config
  | 0, c => some c
  | n + 1, c => (step c).bind (stepN n)

/-- Entry into a function with the given body, the UART stream being `uart`. -/
def call (body : Stmt) (uart : List Nat) : Config := ⟨[body], uart⟩

/-! ## The stand-ins compiled without `CONFIG_EARLY_PRINTK` -/

/-- The inline `early_printk(const char *fmt, ...) {}`. -/
def early_printk_disabled (fmt : List Char) (args : List Arg) : Stmt :=
  Stmt.block []

/-- The inline `early_panic(const char *fmt, ...) {while(1);}`. -/
def early_panic_disabled (fmt : List Char) (args : List Arg) : Stmt :=
  Stmt.block [Stmt.whileLoop 1 Stmt.null]

/-! ## The functions declared with `CONFIG_EARLY_PRINTK` -/

/-- Modelled from the spec: the decimal digits a `%d` or `%u` conversion prints;
the formatter is not in this header. -/
def decimal (n : Nat) : List Char := Nat.toDigits 10 n

/-- Modelled from the spec: the text one conversion specifier produces from one
argument under the printf-style conversion rules the specification refers to
(`%d`, `%i`, `%u`, `%x`, `%c`, `%s`); the formatter is not in this header. A
specifier that does not fit its argument produces nothing. -/
def convert (spec : Char) (a : Arg) : List Char :=
  match a with
  | Arg.int v =>
      if spec = 'd' ∨ spec = 'i' then
        (if v < 0 then '-' :: decimal v.natAbs else decimal v.natAbs)
      else []
  | Arg.uint v =>
      if spec = 'u' then decimal v
      else if spec = 'x' then Nat.toDigits 16 v
      else []
  | Arg.chr c => if spec = 'c' then [c] else []
  | Arg.str s => if spec = 's' then s else []

/-- Modelled from the spec: printf-style formatting of `args` according to
`fmt`; the formatter is not in this header. Ordinary characters are copied,
`%%` gives a percent sign, and any other `%` followed by a specifier consumes
the next argument. -/
def format : List Char → List Arg → List Char
  | [], _ => []
  | c :: rest, args =>
      if c = '%' then
        match rest, args with
        | [], _ => ['%']
        | d :: rest1, [] => if d = '%' then '%' :: format rest1 [] else format rest1 []
        | d :: rest1, a :: args1 =>
            if d = '%' then '%' :: format rest1 (a :: args1)
            else convert d a ++ format rest1 args1
      else c :: format rest args

/-- Modelled from the spec: the bytes transmitted for a text, one per character;
the transmit routine is not in this header. -/
def bytes (s : List Char) : List Nat := s.map Char.toNat

/-- Modelled from the spec: the enabled `early_printk`, which this header only
declares. It formats `args` according to `fmt` and transmits the resulting
bytes to the UART one at a time, then returns. -/
def early_printk_enabled (fmt : List Char) (args : List Arg) : Stmt :=
  Stmt.block [Stmt.transmit (bytes (format fmt args))]

/-- Modelled from the spec: the enabled `early_panic`, which this header only
declares. It formats and transmits exactly as `early_printk` and then enters
an infinite idle loop. -/
def early_panic_enabled (fmt : List Char) (args : List Arg) : Stmt :=
  Stmt.block [Stmt.transmit (bytes (format fmt args)), Stmt.whileLoop 1 Stmt.null]

/-- The body of `early_printk` selected by the feature gate. -/
def early_printk (CONFIG_EARLY_PRINTK : Bool) (fmt : List Char) (args : List Arg) : Stmt :=
  if CONFIG_EARLY_PRINTK then early_printk_enabled fmt args else early_printk_disabled fmt args

/-- The body of `early_panic` selected by the feature gate. -/
def early_panic (CONFIG_EARLY_PRINTK : Bool) (fmt : List Char) (args : List Arg) : Stmt :=
  if CONFIG_EARLY_PRINTK then early_panic_enabled fmt args else early_panic_disabled fmt args

/-! ## Facts about words -/

theorem bitNot_lt (w x : Nat) : bitNot w x < 2 ^ w := by
  unfold bitNot
  have := Nat.two_pow_pos w
  omega

theorem testBit_bitNot (w x i : Nat) :
    (bitNot w x).testBit i = (decide (i < w) && !x.testBit i) := by
  unfold bitNot
  have h : x % 2 ^ w < 2 ^ w := Nat.mod_lt _ (Nat.two_pow_pos w)
  have e : 2 ^ w - 1 - x % 2 ^ w = 2 ^ w - (x % 2 ^ w + 1) := by omega
  rw [e, Nat.testBit_two_pow_sub_succ h, Nat.testBit_mod_two_pow]
  by_cases hi : i < w <;> simp [hi]

/-- When `~PAGE_MASK` is the page size minus one, masking keeps the offset in the page. -/
theorem land_bitNot_eq_mod (w k u m : Nat) (hmask : bitNot w m = 2 ^ k - 1) :
    u &&& bitNot w m = u % 2 ^ k := by
  rw [hmask, Nat.and_pow_two_sub_one_eq_mod]

/-- A page-aligned word plus an offset inside the page still fits in the word. -/
theorem aligned_add_lt (w k s r : Nat) (hk : k ≤ w) (hs : s < 2 ^ w)
    (halign : s % 2 ^ k = 0) (hr : r < 2 ^ k) : s + r < 2 ^ w := by
  obtain ⟨q, rfl⟩ := Nat.dvd_of_mod_eq_zero halign
  have hw : 2 ^ w = 2 ^ k * 2 ^ (w - k) := by
    rw [← Nat.pow_add, Nat.add_sub_cancel' hk]
  rw [hw] at hs ⊢
  have hq : q < 2 ^ (w - k) := Nat.lt_of_mul_lt_mul_left hs
  calc 2 ^ k * q + r < 2 ^ k * q + 2 ^ k := by omega
    _ = 2 ^ k * (q + 1) := by ring
    _ ≤ 2 ^ k * 2 ^ (w - k) := Nat.mul_le_mul_left _ hq

/-- The resolved address under the convention `~PAGE_MASK = PAGE_SIZE - 1`. -/
theorem resolve_eq (w k s u m : Nat) (hk : k ≤ w) (hs : s < 2 ^ w)
    (halign : s % 2 ^ k = 0) (hmask : bitNot w m = 2 ^ k - 1) :
    EARLY_UART_VIRTUAL_ADDRESS w s u m = s + u % 2 ^ k := by
  unfold EARLY_UART_VIRTUAL_ADDRESS
  rw [land_bitNot_eq_mod w k u m hmask]
  exact Nat.mod_eq_of_lt
    (aligned_add_lt w k s _ hk hs halign (Nat.mod_lt _ (Nat.two_pow_pos k)))

/-- An aligned base plus an offset inside the page has that offset. -/
theorem aligned_add_mod (k s r : Nat) (halign : s % 2 ^ k = 0) (hr : r < 2 ^ k) :
    (s + r) % 2 ^ k = r := by
  rw [Nat.add_mod, halign, Nat.zero_add, Nat.mod_mod, Nat.mod_eq_of_lt hr]

/-- Clearing the offset bits with `& PAGE_MASK` recovers an aligned base. -/
theorem aligned_add_land_mask (w k s r m : Nat) (hk : k ≤ w) (hs : s < 2 ^ w)
    (halign : s % 2 ^ k = 0) (hmask : bitNot w m = 2 ^ k - 1) (hr : r < 2 ^ k) :
    (s + r) &&& m = s := by
  have hsum : s + r < 2 ^ w := aligned_add_lt w k s r hk hs halign hr
  obtain ⟨q, rfl⟩ := Nat.dvd_of_mod_eq_zero halign
  apply Nat.eq_of_testBit_eq
  intro i
  have hm := testBit_bitNot w m i
  rw [hmask, Nat.testBit_two_pow_sub_one] at hm
  rw [Nat.testBit_and, Nat.testBit_mul_pow_two_add q hr, Nat.testBit_mul_pow_two]
  by_cases hik : i < k
  · have hiw : i < w := Nat.lt_of_lt_of_le hik hk
    have hge : ¬ i ≥ k := Nat.not_le.mpr hik
    simp [hik, hiw] at hm
    simp [hik, hm]
  · have hge : i ≥ k := Nat.le_of_not_lt hik
    by_cases hiw : i < w
    · simp [hik, hiw] at hm
      simp [hik, hge, hm]
    · have hq : (2 ^ k * q).testBit i = false :=
        Nat.testBit_lt_two_pow (Nat.lt_of_lt_of_le hs
          (Nat.pow_le_pow_right (by decide) (Nat.le_of_not_lt hiw)))
      rw [Nat.testBit_mul_pow_two] at hq
      simp [hik, hge] at hq
      simp [hik, hge, hq]

/-! ## The address macro -/

/-- C1: for every `slot_base`, `uart_phys` and `page_mask` the macro yields
`slot_base + (uart_phys & ~page_mask)` in the arithmetic of `w`-bit words, where
`~` is the bitwise complement on `w` bits (bit `i` of `~page_mask` is set exactly
when `i < w` and bit `i` of `page_mask` is clear) and `&` is the bitwise and. -/
theorem resolver_formula (w slot_base uart_phys page_mask : Nat) :
    EARLY_UART_VIRTUAL_ADDRESS w slot_base uart_phys page_mask
        = (slot_base + (uart_phys &&& bitNot w page_mask)) % 2 ^ w
    ∧ (∀ i, (bitNot w page_mask).testBit i = (decide (i < w) && !page_mask.testBit i))
    ∧ (∀ i, (uart_phys &&& bitNot w page_mask).testBit i
          = (uart_phys.testBit i && (decide (i < w) && !page_mask.testBit i))) := by
  refine ⟨rfl, fun i => testBit_bitNot w page_mask i, fun i => ?_⟩
  rw [Nat.testBit_and, testBit_bitNot]

/-- C2, as stated, fails: with `page_mask` the page size minus one (`0xFFF`, pages
of `2^12` bytes) and the page-aligned `slot_base = 0x1000`, the macro at
`uart_phys = 0x3F201014` gives `0x3F202000`, which is neither
`slot_base + uart_phys mod page_size = 0x1014` nor has the offset `0x014`. -/
theorem resolver_offset_counterexample :
    (0xFFF = 2 ^ 12 - 1 ∧ 0x1000 % 2 ^ 12 = 0) ∧
    EARLY_UART_VIRTUAL_ADDRESS 32 0x1000 0x3F201014 0xFFF = 0x3F202000 ∧
    EARLY_UART_VIRTUAL_ADDRESS 32 0x1000 0x3F201014 0xFFF ≠ 0x1000 + 0x3F201014 % 2 ^ 12 ∧
    EARLY_UART_VIRTUAL_ADDRESS 32 0x1000 0x3F201014 0xFFF % 2 ^ 12 ≠ 0x3F201014 % 2 ^ 12 := by
  decide

/-- C2, amended: for every page-aligned `slot_base` and every `uart_phys`, with
`page_mask` such that `~page_mask` is the page size minus one (page size `2^k`,
`k ≤ w`), the resolved address is `slot_base + uart_phys mod page_size`, and its
offset in the page is the offset of `uart_phys`. -/
theorem resolver_preserves_offset (w k slot_base uart_phys page_mask : Nat)
    (hk : k ≤ w) (hslot : slot_base < 2 ^ w) (halign : slot_base % 2 ^ k = 0)
    (hmask : bitNot w page_mask = 2 ^ k - 1) :
    EARLY_UART_VIRTUAL_ADDRESS w slot_base uart_phys page_mask
        = slot_base + uart_phys % 2 ^ k
    ∧ EARLY_UART_VIRTUAL_ADDRESS w slot_base uart_phys page_mask % 2 ^ k
        = uart_phys % 2 ^ k := by
  have h := resolve_eq w k slot_base uart_phys page_mask hk hslot halign hmask
  refine ⟨h, ?_⟩
  rw [h]
  exact aligned_add_mod k slot_base _ halign (Nat.mod_lt _ (Nat.two_pow_pos k))

/-- The amended C2 at 32-bit words, 4 KiB pages, `slot_base = 0x1000`, `uart_phys = 0x3F201014`. -/
theorem resolver_preserves_offset_witness :
    (12 ≤ 32 ∧ 0x1000 < 2 ^ 32 ∧ 0x1000 % 2 ^ 12 = 0 ∧ bitNot 32 0xFFFFF000 = 2 ^ 12 - 1)
    ∧ EARLY_UART_VIRTUAL_ADDRESS 32 0x1000 0x3F201014 0xFFFFF000
        = 0x1000 + 0x3F201014 % 2 ^ 12
    ∧ EARLY_UART_VIRTUAL_ADDRESS 32 0x1000 0x3F201014 0xFFFFF000 % 2 ^ 12
        = 0x3F201014 % 2 ^ 12 :=
  ⟨by decide, resolver_preserves_offset 32 12 0x1000 0x3F201014 0xFFFFF000
    (by decide) (by decide) (by decide) (by decide)⟩

/-- C3, as stated, fails: at `slot_base = 0x1000`, `uart_phys = 0x3F201014`,
`page_mask = 0xFFF` the macro yields `0x3F202000`, not `0x1014`, on 32-bit and
on 64-bit words. -/
theorem resolver_example_counterexample :
    EARLY_UART_VIRTUAL_ADDRESS 32 0x1000 0x3F201014 0xFFF = 0x3F202000 ∧
    EARLY_UART_VIRTUAL_ADDRESS 64 0x1000 0x3F201014 0xFFF = 0x3F202000 ∧
    EARLY_UART_VIRTUAL_ADDRESS 32 0x1000 0x3F201014 0xFFF ≠ 0x1014 ∧
    EARLY_UART_VIRTUAL_ADDRESS 64 0x1000 0x3F201014 0xFFF ≠ 0x1014 := by
  decide

/-- C3, amended: at `slot_base = 0x1000`, `uart_phys = 0x3F201014` and
`page_mask` the complement of `0xFFF` (`0xFFFFF000` on 32-bit words,
`0xFFFFFFFFFFFFF000` on 64-bit words) the macro yields `0x1014 = 0x1000 + 0x014`. -/
theorem resolver_example :
    EARLY_UART_VIRTUAL_ADDRESS 32 0x1000 0x3F201014 0xFFFFF000 = 0x1014 ∧
    EARLY_UART_VIRTUAL_ADDRESS 64 0x1000 0x3F201014 0xFFFFFFFFFFFFF000 = 0x1014 ∧
    bitNot 32 0xFFF = 0xFFFFF000 ∧ bitNot 64 0xFFF = 0xFFFFFFFFFFFFF000 ∧
    0x1014 = 0x1000 + 0x014 := by
  decide

/-- C4, as stated, fails: with `page_mask = 0xFFF` the page size minus one and
`slot_base = 0x1000` page-aligned (`slot_base & page_mask = 0`), the operands
`slot_base` and `uart_phys & ~page_mask` share bit 12 at `uart_phys = 0x3F201014`,
and the sum `0x3F202000` differs from the bitwise or `0x3F201000`. -/
theorem resolver_lor_counterexample :
    (0xFFF = 2 ^ 12 - 1 ∧ 0x1000 &&& 0xFFF = 0) ∧
    0x1000 &&& (0x3F201014 &&& bitNot 32 0xFFF) ≠ 0 ∧
    EARLY_UART_VIRTUAL_ADDRESS 32 0x1000 0x3F201014 0xFFF = 0x3F202000 ∧
    0x1000 ||| (0x3F201014 &&& bitNot 32 0xFFF) = 0x3F201000 ∧
    EARLY_UART_VIRTUAL_ADDRESS 32 0x1000 0x3F201014 0xFFF
      ≠ 0x1000 ||| (0x3F201014 &&& bitNot 32 0xFFF) := by
  decide

/-- C4, amended: for every `(slot_base, uart_phys, page_mask)` with `~page_mask`
the page size minus one (page size `2^k`, `k ≤ w`) and `slot_base` page-aligned
(`slot_base & (page_size - 1) = 0`), the resolved address equals the bitwise or
`slot_base | (uart_phys & ~page_mask)`, and the two operands share no set bit. -/
theorem resolver_eq_lor (w k slot_base uart_phys page_mask : Nat)
    (hk : k ≤ w) (hslot : slot_base < 2 ^ w) (halign : slot_base &&& (2 ^ k - 1) = 0)
    (hmask : bitNot w page_mask = 2 ^ k - 1) :
    EARLY_UART_VIRTUAL_ADDRESS w slot_base uart_phys page_mask
        = slot_base ||| (uart_phys &&& bitNot w page_mask)
    ∧ slot_base &&& (uart_phys &&& bitNot w page_mask) = 0 := by
  have hmod : slot_base % 2 ^ k = 0 := by
    rw [← Nat.and_pow_two_sub_one_eq_mod]; exact halign
  have h := resolve_eq w k slot_base uart_phys page_mask hk hslot hmod hmask
  have hoff := land_bitNot_eq_mod w k uart_phys page_mask hmask
  have hlt : uart_phys % 2 ^ k < 2 ^ k := Nat.mod_lt _ (Nat.two_pow_pos k)
  obtain ⟨q, hq⟩ := Nat.dvd_of_mod_eq_zero hmod
  constructor
  · rw [h, hoff, hq]
    exact Nat.mul_add_lt_is_or hlt q
  · rw [hmask, Nat.and_comm uart_phys, ← Nat.and_assoc, halign, Nat.zero_and]

/-- The amended C4 at 32-bit words, 4 KiB pages, `slot_base = 0x1000`, `uart_phys = 0x3F201014`. -/
theorem resolver_eq_lor_witness :
    (12 ≤ 32 ∧ 0x1000 < 2 ^ 32 ∧ 0x1000 &&& (2 ^ 12 - 1) = 0
      ∧ bitNot 32 0xFFFFF000 = 2 ^ 12 - 1)
    ∧ EARLY_UART_VIRTUAL_ADDRESS 32 0x1000 0x3F201014 0xFFFFF000
        = 0x1000 ||| (0x3F201014 &&& bitNot 32 0xFFFFF000)
    ∧ 0x1000 &&& (0x3F201014 &&& bitNot 32 0xFFFFF000) = 0 :=
  ⟨by decide, resolver_eq_lor 32 12 0x1000 0x3F201014 0xFFFFF000
    (by decide) (by decide) (by decide) (by decide)⟩

/-- C5, as stated, fails: with `page_mask = 0xFFF` the page size minus one and
`slot_base = 0x1000` page-aligned, the resolved address at
`uart_phys = 0x3F201014` is `0x3F202000`; clearing its offset bits leaves
`0x3F202000`, not `slot_base`, the address is outside the page
`[0x1000, 0x2000)`, and resolving again from `0x3F202000` gives `0x7E403000`. -/
theorem resolver_page_counterexample :
    (0xFFF = 2 ^ 12 - 1 ∧ 0x1000 % 2 ^ 12 = 0) ∧
    EARLY_UART_VIRTUAL_ADDRESS 32 0x1000 0x3F201014 0xFFF = 0x3F202000 ∧
    0x3F202000 - 0x3F202000 % 2 ^ 12 ≠ 0x1000 ∧
    0x3F202000 &&& bitNot 32 0xFFF ≠ 0x1000 ∧
    ¬ (0x3F202000 < 0x1000 + 2 ^ 12) ∧
    EARLY_UART_VIRTUAL_ADDRESS 32 (0x3F202000 - 0x3F202000 % 2 ^ 12) 0x3F201014 0xFFF
      ≠ EARLY_UART_VIRTUAL_ADDRESS 32 0x1000 0x3F201014 0xFFF := by
  decide

/-- C5, amended: for every `(slot_base, uart_phys, page_mask)` with `~page_mask`
the page size minus one (page size `2^k`, `k ≤ w`) and `slot_base` page-aligned,
the resolved address with its offset bits cleared (arithmetically, or by
`& page_mask`) is `slot_base`, the resolved address lies in the page
`[slot_base, slot_base + page_size)`, and resolving again from that page-aligned
component with the same `uart_phys` gives the same address. -/
theorem resolver_page_component (w k slot_base uart_phys page_mask : Nat)
    (hk : k ≤ w) (hslot : slot_base < 2 ^ w) (halign : slot_base % 2 ^ k = 0)
    (hmask : bitNot w page_mask = 2 ^ k - 1) :
    EARLY_UART_VIRTUAL_ADDRESS w slot_base uart_phys page_mask
        - EARLY_UART_VIRTUAL_ADDRESS w slot_base uart_phys page_mask % 2 ^ k = slot_base
    ∧ EARLY_UART_VIRTUAL_ADDRESS w slot_base uart_phys page_mask &&& page_mask = slot_base
    ∧ slot_base ≤ EARLY_UART_VIRTUAL_ADDRESS w slot_base uart_phys page_mask
    ∧ EARLY_UART_VIRTUAL_ADDRESS w slot_base uart_phys page_mask < slot_base + 2 ^ k
    ∧ EARLY_UART_VIRTUAL_ADDRESS w
        (EARLY_UART_VIRTUAL_ADDRESS w slot_base uart_phys page_mask
          - EARLY_UART_VIRTUAL_ADDRESS w slot_base uart_phys page_mask % 2 ^ k)
        uart_phys page_mask
        = EARLY_UART_VIRTUAL_ADDRESS w slot_base uart_phys page_mask := by
  have h := resolve_eq w k slot_base uart_phys page_mask hk hslot halign hmask
  have hlt : uart_phys % 2 ^ k < 2 ^ k := Nat.mod_lt _ (Nat.two_pow_pos k)
  have hoff := aligned_add_mod k slot_base _ halign hlt
  have hbase : EARLY_UART_VIRTUAL_ADDRESS w slot_base uart_phys page_mask
      - EARLY_UART_VIRTUAL_ADDRESS w slot_base uart_phys page_mask % 2 ^ k = slot_base := by
    rw [h, hoff]; omega
  refine ⟨hbase, ?_, ?_, ?_, ?_⟩
  · rw [h]
    exact aligned_add_land_mask w k slot_base _ page_mask hk hslot halign hmask hlt
  · rw [h]; omega
  · rw [h]; omega
  · rw [hbase]

/-- The amended C5 at 32-bit words, 4 KiB pages, `slot_base = 0x1000`, `uart_phys = 0x3F201014`. -/
theorem resolver_page_component_witness :
    (12 ≤ 32 ∧ 0x1000 < 2 ^ 32 ∧ 0x1000 % 2 ^ 12 = 0 ∧ bitNot 32 0xFFFFF000 = 2 ^ 12 - 1)
    ∧ (EARLY_UART_VIRTUAL_ADDRESS 32 0x1000 0x3F201014 0xFFFFF000
        - EARLY_UART_VIRTUAL_ADDRESS 32 0x1000 0x3F201014 0xFFFFF000 % 2 ^ 12 = 0x1000
    ∧ EARLY_UART_VIRTUAL_ADDRESS 32 0x1000 0x3F201014 0xFFFFF000 &&& 0xFFFFF000 = 0x1000
    ∧ 0x1000 ≤ EARLY_UART_VIRTUAL_ADDRESS 32 0x1000 0x3F201014 0xFFFFF000
    ∧ EARLY_UART_VIRTUAL_ADDRESS 32 0x1000 0x3F201014 0xFFFFF000 < 0x1000 + 2 ^ 12
    ∧ EARLY_UART_VIRTUAL_ADDRESS 32
        (EARLY_UART_VIRTUAL_ADDRESS 32 0x1000 0x3F201014 0xFFFFF000
          - EARLY_UART_VIRTUAL_ADDRESS 32 0x1000 0x3F201014 0xFFFFF000 % 2 ^ 12)
        0x3F201014 0xFFFFF000
        = EARLY_UART_VIRTUAL_ADDRESS 32 0x1000 0x3F201014 0xFFFFF000) :=
  ⟨by decide, resolver_page_component 32 12 0x1000 0x3F201014 0xFFFFF000
    (by decide) (by decide) (by decide) (by decide)⟩

/-- C10: on 32-bit words, for every page size `2^k ≤ 2^32`, every page-aligned
`slot_base < 2^32` and every `uart_phys < 2^32`, when `~PAGE_MASK` is the page
size minus one, the sum of the macro does not wrap: the result is the exact sum
`slot_base + (uart_phys & ~PAGE_MASK)` and it is at least `slot_base`. -/
theorem resolver_no_wrap (k slot_base uart_phys page_mask : Nat)
    (hk : k ≤ 32) (hslot : slot_base < 2 ^ 32) (huart : uart_phys < 2 ^ 32)
    (halign : slot_base % 2 ^ k = 0) (hmask : bitNot 32 page_mask = 2 ^ k - 1) :
    EARLY_UART_VIRTUAL_ADDRESS 32 slot_base uart_phys page_mask
        = slot_base + (uart_phys &&& bitNot 32 page_mask)
    ∧ slot_base ≤ EARLY_UART_VIRTUAL_ADDRESS 32 slot_base uart_phys page_mask := by
  have h := resolve_eq 32 k slot_base uart_phys page_mask hk hslot halign hmask
  rw [h, land_bitNot_eq_mod 32 k uart_phys page_mask hmask]
  exact ⟨rfl, Nat.le_add_right _ _⟩

/-- C10 at the last page of the 32-bit address space with the largest offset. -/
theorem resolver_no_wrap_witness :
    (12 ≤ 32 ∧ 0xFFFFF000 < 2 ^ 32 ∧ 0xFFFFFFFF < 2 ^ 32 ∧ 0xFFFFF000 % 2 ^ 12 = 0
      ∧ bitNot 32 0xFFFFF000 = 2 ^ 12 - 1)
    ∧ EARLY_UART_VIRTUAL_ADDRESS 32 0xFFFFF000 0xFFFFFFFF 0xFFFFF000
        = 0xFFFFF000 + (0xFFFFFFFF &&& bitNot 32 0xFFFFF000)
    ∧ 0xFFFFF000 ≤ EARLY_UART_VIRTUAL_ADDRESS 32 0xFFFFF000 0xFFFFFFFF 0xFFFFF000 :=
  ⟨by decide, resolver_no_wrap 12 0xFFFFF000 0xFFFFFFFF 0xFFFFF000
    (by decide) (by decide) (by decide) (by decide) (by decide)⟩

/-! ## Execution of the entry points -/

/-- Once `while(1);` is the last statement left before the return, one more
step is always possible and `while(1);` is still the last statement left. -/
theorem step_keeps_idle (c : Config)
    (h : ∃ pre, c.cont = pre ++ [Stmt.whileLoop 1 Stmt.null]) :
    ∃ d, step c = some d ∧ (∃ pre, d.cont = pre ++ [Stmt.whileLoop 1 Stmt.null])
      ∧ (c.cont = [Stmt.whileLoop 1 Stmt.null]
          ∨ c.cont = [Stmt.null, Stmt.whileLoop 1 Stmt.null] →
         (d.cont = [Stmt.whileLoop 1 Stmt.null]
          ∨ d.cont = [Stmt.null, Stmt.whileLoop 1 Stmt.null]) ∧ d.uart = c.uart) := by
  obtain ⟨k, u⟩ := c
  obtain ⟨pre, hpre⟩ := h
  simp only at hpre
  subst hpre
  cases pre with
  | nil =>
      refine ⟨⟨[Stmt.null, Stmt.whileLoop 1 Stmt.null], u⟩, ?_, ⟨[Stmt.null], rfl⟩, ?_⟩
      · simp [step]
      · intro _; exact ⟨Or.inr rfl, rfl⟩
  | cons st rest =>
      cases st with
      | null =>
          refine ⟨⟨rest ++ [Stmt.whileLoop 1 Stmt.null], u⟩, ?_, ⟨rest, rfl⟩, ?_⟩
          · simp [step]
          · intro hc
            rcases hc with hc | hc
            · simp at hc
            · simp at hc
              subst hc
              exact ⟨Or.inl rfl, rfl⟩
      | block ss =>
          refine ⟨⟨ss ++ (rest ++ [Stmt.whileLoop 1 Stmt.null]), u⟩, ?_, ⟨ss ++ rest, ?_⟩, ?_⟩
          · simp [step]
          · simp
          · intro hc
            rcases hc with hc | hc <;> simp at hc
      | whileLoop cnd body =>
          by_cases hz : cnd = 0
          · refine ⟨⟨rest ++ [Stmt.whileLoop 1 Stmt.null], u⟩, ?_, ⟨rest, rfl⟩, ?_⟩
            · simp [step, hz]
            · intro hc
              rcases hc with hc | hc <;> simp [hz] at hc
          · refine ⟨⟨body :: Stmt.whileLoop cnd body :: (rest ++ [Stmt.whileLoop 1 Stmt.null]), u⟩,
              ?_, ⟨body :: Stmt.whileLoop cnd body :: rest, rfl⟩, ?_⟩
            · simp [step, hz]
            · intro hc
              rcases hc with hc | hc <;> simp at hc
      | transmit bs =>
          cases bs with
          | nil =>
              refine ⟨⟨rest ++ [Stmt.whileLoop 1 Stmt.null], u⟩, ?_, ⟨rest, rfl⟩, ?_⟩
              · simp [step]
              · intro hc
                rcases hc with hc | hc <;> simp at hc
          | cons b bs =>
              refine ⟨⟨Stmt.transmit bs :: (rest ++ [Stmt.whileLoop 1 Stmt.null]), u ++ [b]⟩,
                ?_, ⟨Stmt.transmit bs :: rest, rfl⟩, ?_⟩
              · simp [step]
              · intro hc
                rcases hc with hc | hc <;> simp at hc

/-- With `while(1);` last before the return, every number of steps can be taken
and none of them reaches the return. -/
theorem stepN_keeps_idle (n : Nat) (c : Config)
    (h : ∃ pre, c.cont = pre ++ [Stmt.whileLoop 1 Stmt.null]) :
    ∃ d, stepN n c = some d ∧ ∃ pre, d.cont = pre ++ [Stmt.whileLoop 1 Stmt.null] := by
  induction n generalizing c with
  | zero => exact ⟨c, rfl, h⟩
  | succ n ih =>
      obtain ⟨d, hd, hpre, _⟩ := step_keeps_idle c h
      obtain ⟨e, he, hpre2⟩ := ih d hpre
      exact ⟨e, by simp [stepN, hd, he], hpre2⟩

/-- Inside the bare `while(1);` every number of steps can be taken and the UART
stream stays what it was. -/
theorem stepN_idle_uart (n : Nat) (c : Config)
    (h : c.cont = [Stmt.whileLoop 1 Stmt.null]
          ∨ c.cont = [Stmt.null, Stmt.whileLoop 1 Stmt.null]) :
    ∃ d, stepN n c = some d ∧ d.uart = c.uart := by
  induction n generalizing c with
  | zero => exact ⟨c, rfl, rfl⟩
  | succ n ih =>
      have hpre : ∃ pre, c.cont = pre ++ [Stmt.whileLoop 1 Stmt.null] := by
        rcases h with h | h
        · exact ⟨[], by simp [h]⟩
        · exact ⟨[Stmt.null], by simp [h]⟩
      obtain ⟨d, hd, _, hkeep⟩ := step_keeps_idle c hpre
      obtain ⟨hd2, hu⟩ := hkeep h
      obtain ⟨e, he, heu⟩ := ih d hd2
      exact ⟨e, by simp [stepN, hd, he], by rw [heu, hu]⟩

/-- A configuration with `while(1);` still to execute has not returned. -/
theorem not_returned_of_idle (d : Config)
    (h : ∃ pre, d.cont = pre ++ [Stmt.whileLoop 1 Stmt.null]) : d.returned = false := by
  obtain ⟨pre, hpre⟩ := h
  cases pre <;> simp [Config.returned, hpre]

/-- Transmitting `bs` takes one step per byte and one to finish, and appends
`bs` to the UART stream. -/
theorem stepN_transmit (bs : List Nat) (k : List Stmt) (u : List Nat) :
    stepN (bs.length + 1) ⟨Stmt.transmit bs :: k, u⟩ = some ⟨k, u ++ bs⟩ := by
  induction bs generalizing u with
  | nil => simp [stepN, step]
  | cons b bs ih =>
      have := ih (u ++ [b])
      simp only [List.length_cons, stepN, step, Option.some_bind, List.append_assoc,
        List.singleton_append] at this ⊢
      exact this

/-- The enabled `early_printk` returns after transmitting the formatted text. -/
theorem early_printk_enabled_run (fmt : List Char) (args : List Arg) (u : List Nat) :
    stepN ((bytes (format fmt args)).length + 2) (call (early_printk true fmt args) u)
      = some ⟨[], u ++ bytes (format fmt args)⟩ := by
  have h := stepN_transmit (bytes (format fmt args)) [] u
  simp only [stepN, step, call, early_printk, early_printk_enabled, if_true,
    Option.some_bind, List.append_nil, List.singleton_append] at h ⊢
  exact h

/-- C6: for every format and argument list and either setting of
`CONFIG_EARLY_PRINTK`, `early_panic` never returns to its caller: after any
number `n` of steps the execution is at a configuration that has not returned. -/
theorem early_panic_never_returns (CONFIG_EARLY_PRINTK : Bool) (fmt : List Char)
    (args : List Arg) (uart : List Nat) (n : Nat) :
    ∃ c, stepN n (call (early_panic CONFIG_EARLY_PRINTK fmt args) uart) = some c
      ∧ c.returned = false := by
  cases n with
  | zero => exact ⟨_, rfl, rfl⟩
  | succ n =>
      cases CONFIG_EARLY_PRINTK with
      | false =>
          obtain ⟨d, hd, hpre⟩ := stepN_keeps_idle n ⟨[Stmt.whileLoop 1 Stmt.null], uart⟩
            ⟨[], rfl⟩
          refine ⟨d, ?_, not_returned_of_idle d hpre⟩
          simpa [stepN, step, call, early_panic, early_panic_disabled] using hd
      | true =>
          obtain ⟨d, hd, hpre⟩ := stepN_keeps_idle n
            ⟨[Stmt.transmit (bytes (format fmt args)), Stmt.whileLoop 1 Stmt.null], uart⟩
            ⟨[Stmt.transmit (bytes (format fmt args))], rfl⟩
          refine ⟨d, ?_, not_returned_of_idle d hpre⟩
          simpa [stepN, step, call, early_panic, early_panic_enabled] using hd

/-- C7: for every format and argument list, the `early_printk` compiled without
`CONFIG_EARLY_PRINTK` returns to its caller (after one step) with the UART
stream it was called with, and the stream is that same one at every point of
the execution. -/
theorem early_printk_disabled_returns (fmt : List Char) (args : List Arg)
    (uart : List Nat) :
    (∃ c, stepN 1 (call (early_printk false fmt args) uart) = some c
        ∧ c.returned = true ∧ c.uart = uart)
    ∧ ∀ n, stepN n (call (early_printk false fmt args) uart) = none
        ∨ ∃ c, stepN n (call (early_printk false fmt args) uart) = some c
            ∧ c.uart = uart := by
  refine ⟨⟨⟨[], uart⟩, rfl, rfl, rfl⟩, fun n => ?_⟩
  cases n with
  | zero => exact Or.inr ⟨_, rfl, rfl⟩
  | succ n =>
      cases n with
      | zero => exact Or.inr ⟨⟨[], uart⟩, rfl, rfl⟩
      | succ n => exact Or.inl rfl

/-- C8: for every format and argument list, the `early_panic` compiled without
`CONFIG_EARLY_PRINTK` performs no output: after any number `n` of steps of its
execution the UART stream is the one at the moment of the call. -/
theorem early_panic_disabled_silent (fmt : List Char) (args : List Arg)
    (uart : List Nat) (n : Nat) :
    ∃ c, stepN n (call (early_panic false fmt args) uart) = some c ∧ c.uart = uart := by
  cases n with
  | zero => exact ⟨_, rfl, rfl⟩
  | succ n =>
      obtain ⟨d, hd, hu⟩ := stepN_idle_uart n ⟨[Stmt.whileLoop 1 Stmt.null], uart⟩
        (Or.inl rfl)
      refine ⟨d, ?_, hu⟩
      simpa [stepN, step, call, early_panic, early_panic_disabled] using hd

/-- C9: the enabled `early_printk` called with format `"%d items\n"` and argument
`3` returns having appended to the UART stream exactly the bytes of
`"3 items\n"`, in order. -/
theorem early_printk_items (uart : List Nat) :
    stepN 10 (call (early_printk true ("%d items\n".toList) [Arg.int 3]) uart)
      = some ⟨[], uart ++ bytes ("3 items\n".toList)⟩
    ∧ bytes ("3 items\n".toList) = [51, 32, 105, 116, 101, 109, 115, 10] := by
  have hf : format ("%d items\n".toList) [Arg.int 3] = "3 items\n".toList := by decide
  have h := early_printk_enabled_run ("%d items\n".toList) [Arg.int 3] uart
  rw [hf] at h
  exact ⟨h, by decide⟩

end EarlyPrintk
